import Mathlib

/-!
Shallow embedding of the source-provenance merge core of
`src/lambdas/src/main.py` (function `merge_results_with_cutouts` and its
inner helper `dedupe_sources`), together with proofs of the specified
properties.

Python dictionaries are modelled as association lists (`List (String × α)`)
with first-occurrence lookup, in-place replacement on assignment, and
append-on-new-key, matching CPython `dict` semantics on the operations the
code uses (`get`, `copy`, item assignment, `update`).  A value that may be
a missing key or `None` is modelled as `Option`.
-/

namespace Merge

/-- Dynamic values stored in the `unit` / `confidence` maps.  The merge core
only copies these around, tests truthiness of the `installmentPlans` entry
and overwrites it; it never looks inside list elements, so list elements are
themselves `Val`s one level down via `vlist`. -/
inductive Val where
  | vnull : Val
  | vbool : Bool → Val
  | vnum : Int → Val
  | vstr : String → Val
  | vlist : List Val → Val
deriving Inhabited

/-- Python truthiness (`if installment_plans:`) for the values `Val` models. -/
def truthy : Val → Bool
  | .vnull => false
  | .vbool b => b
  | .vnum n => n != 0
  | .vstr s => !s.isEmpty
  | .vlist l => !l.isEmpty

/-- Python `d.get(k, default)` on an association-list dictionary: the value at the
first occurrence of `k`, or `default` when `k` is absent. -/
def alistGetD (m : List (String × α)) (k : String) (d : α) : α :=
  match m.find? (fun kv => kv.1 == k) with
  | some kv => kv.2
  | none => d

/-- Python `k in d` / `d[k]` as an optional lookup. -/
def alistLookup (m : List (String × α)) (k : String) : Option α :=
  (m.find? (fun kv => kv.1 == k)).map (fun kv => kv.2)

/-- Python `d[k] = v`: replace the value in place when the key exists
(keeping dictionary order), otherwise append the new binding at the end. -/
def dictInsert (m : List (String × α)) (k : String) (v : α) : List (String × α) :=
  if m.any (fun kv => kv.1 == k) then
    m.map (fun kv => if kv.1 == k then (k, v) else kv)
  else
    m ++ [(k, v)]

/-- Python `a.update(b)`: fold `b`'s bindings into `a` in order, later
bindings winning. -/
def dictUpdate (a b : List (String × α)) : List (String × α) :=
  b.foldl (fun acc kv => dictInsert acc kv.1 kv.2) a

/-- An input citation record, as read by the code through
`source.get('field')` and `source.get('chunk_id')`: a missing key and a
`None` value both read back as `none`. -/
structure SourceIn where
  field : Option String
  chunk_id : Option String
deriving DecidableEq, Repr, Inhabited

/-- An input unit record from either extraction pass.  The code reads it
with `.get('unit', {})`, `.get('confidence', {})` and `.get('sources', [])`;
a missing map key is modelled by the empty list, and `sources` may also be
present but `None` (`Option`), which `dedupe_sources` absorbs via
`sources or []`. -/
structure UnitRec where
  unit : List (String × Val)
  confidence : List (String × Val)
  sources : Option (List SourceIn)
deriving Inhabited

/-- An output source record.  Contract-pass records are built with the keys
`field`, `chunk_id`, `chunk_file_key`; installment-pass records omit the
`chunk_id` key.  Key presence is modelled by the outer `Option` of
`chunk_id?`: `none` = key absent, `some c` = key present with value `c`. -/
structure SourceOut where
  field : Option String
  chunk_id? : Option (Option String)
  chunk_file_key : Option String
deriving DecidableEq, Repr, Inhabited

/-- Python `s.get('chunk_id')` on an output source record: `None` both when the key
is absent and when it is present with value `None`. -/
def SourceOut.chunkIdGet (s : SourceOut) : Option String :=
  s.chunk_id?.join

/-- One merged output unit record. -/
structure MergedUnit where
  unit : List (String × Val)
  sources : List SourceOut
  confidence : List (String × Val)
deriving Inhabited

/-- The artifact map `s3_cutout_paths`: `"unit{N}_{field}" -> [locator...]`. -/
abbrev CutoutMap := List (String × List String)

/-- Python string interpolation of a possibly-`None` field name
(`f"{None}"` renders as `"None"`). -/
def pyStr : Option String → String
  | some s => s
  | none => "None"

/-- The lookup key `f"unit{unit_number}_{field}"`. -/
def fieldKey (unit_number : Nat) (field : Option String) : String :=
  "unit" ++ toString unit_number ++ "_" ++ pyStr field

/-- The dedup key `(source.get('field'), source.get('chunk_id'))`. -/
def keyIn (s : SourceIn) : Option String × Option String :=
  (s.field, s.chunk_id)

/-- The seen-set loop of the inner `dedupe_sources`: emit a source the first
time its `(field, chunk_id)` key appears, skip later occurrences. -/
def dedupeGo : List SourceIn → List (Option String × Option String) → List SourceIn
  | [], _ => []
  | s :: rest, seen =>
    if keyIn s ∈ seen then dedupeGo rest seen
    else s :: dedupeGo rest (keyIn s :: seen)

/-- The function `dedupe_sources(sources)`: `sources or []` then the seen-set loop. -/
def dedupe_sources (sources : Option (List SourceIn)) : List SourceIn :=
  dedupeGo (sources.getD []) []

/-- Resolution of one deduplicated contract (Pass-A) citation: look the
field key up in the cutout map; first locator wins; otherwise fall back to
`chunk_id`, with the literal `"calculated"` mapped to `None`.  The emitted
record carries the `chunk_id` key. -/
def resolveContract (m : CutoutMap) (unit_number : Nat) (source : SourceIn) : SourceOut :=
  let s3_uris := alistGetD m (fieldKey unit_number source.field) []
  let chunk_file_key :=
    match s3_uris with
    | u :: _ => some u
    | [] => if source.chunk_id == some "calculated" then none else source.chunk_id
  { field := source.field, chunk_id? := some source.chunk_id, chunk_file_key := chunk_file_key }

/-- Resolution of one appended installment (Pass-B) citation: first locator
wins; otherwise `chunk_id` passes through unchanged (no `"calculated"`
rule).  The emitted record omits the `chunk_id` key. -/
def resolveInstallment (m : CutoutMap) (unit_number : Nat) (source : SourceIn) : SourceOut :=
  let s3_uris := alistGetD m (fieldKey unit_number source.field) []
  let chunk_file_key :=
    match s3_uris with
    | u :: _ => some u
    | [] => source.chunk_id
  { field := source.field, chunk_id? := none, chunk_file_key := chunk_file_key }

/-- The skip test for an installment citation:
`any(s['field'] == field and s.get('chunk_id') == chunk_id for s in merged_unit['sources'])`. -/
def skipInstallment (acc : List SourceOut) (source : SourceIn) : Bool :=
  acc.any (fun s => s.field == source.field && s.chunkIdGet == source.chunk_id)

/-- The installment-source loop: append each non-skipped citation's
resolution to the accumulated source list. -/
def addInstallmentSources (m : CutoutMap) (unit_number : Nat)
    (acc : List SourceOut) (srcs : List SourceIn) : List SourceOut :=
  srcs.foldl
    (fun acc source =>
      if skipInstallment acc source then acc
      else acc ++ [resolveInstallment m unit_number source])
    acc

/-- The body of the per-unit loop of `merge_results_with_cutouts` for
0-based index `unit_idx` and contract unit `contract_unit`. -/
def mergeUnit (m : CutoutMap) (installment_result : List UnitRec)
    (unit_idx : Nat) (contract_unit : UnitRec) : MergedUnit :=
  let unit_number := unit_idx + 1
  let mergedFields :=
    match installment_result[unit_idx]? with
    | some installment_unit =>
      let installment_plans := alistGetD installment_unit.unit "installmentPlans" (Val.vlist [])
      if truthy installment_plans then
        dictInsert contract_unit.unit "installmentPlans" installment_plans
      else contract_unit.unit
    | none => contract_unit.unit
  let mergedConfidence :=
    match installment_result[unit_idx]? with
    | some installment_unit => dictUpdate contract_unit.confidence installment_unit.confidence
    | none => contract_unit.confidence
  let contractSources :=
    (dedupe_sources contract_unit.sources).map (resolveContract m unit_number)
  let allSources :=
    match installment_result[unit_idx]? with
    | some installment_unit =>
      addInstallmentSources m unit_number contractSources
        (dedupe_sources installment_unit.sources)
    | none => contractSources
  { unit := mergedFields, sources := allSources, confidence := mergedConfidence }

/-- The `for unit_idx, contract_unit in enumerate(contract_result)` loop,
carrying the running index. -/
def mergeFrom (m : CutoutMap) (installment_result : List UnitRec) :
    Nat → List UnitRec → List MergedUnit
  | _, [] => []
  | idx, u :: rest => mergeUnit m installment_result idx u :: mergeFrom m installment_result (idx + 1) rest

/-- The function `merge_results_with_cutouts(contract_result, installment_result, s3_cutout_paths)`. -/
def merge_results_with_cutouts (contract_result installment_result : List UnitRec)
    (s3_cutout_paths : CutoutMap) : List MergedUnit :=
  mergeFrom s3_cutout_paths installment_result 0 contract_result

/-- Bool form of "these two input citations carry the same
`(field, chunk_id)` key". -/
def sameKey (t s : SourceIn) : Bool :=
  t.field == s.field && t.chunk_id == s.chunk_id

/-- Concrete Pass-A unit used as witness input: two fields, two confidence
entries, one `"calculated"` citation. -/
def wUnitA1 : UnitRec :=
  { unit := [("buyer", Val.vstr "alice"), ("installmentPlans", Val.vlist [Val.vstr "X"])],
    confidence := [("f1", Val.vstr "high"), ("f2", Val.vstr "low")],
    sources := some [{ field := some "total", chunk_id := some "calculated" }] }

/-- Concrete Pass-B unit used as witness input: a two-element installment
plan list, overlapping and fresh confidence keys, one citation. -/
def wUnitB1 : UnitRec :=
  { unit := [("installmentPlans", Val.vlist [Val.vstr "Y", Val.vstr "Z"])],
    confidence := [("f1", Val.vstr "medium"), ("f3", Val.vstr "high")],
    sources := some [{ field := some "parcelValue", chunk_id := some "chunk9" }] }

/-- Concrete Pass-A unit whose only citation has a rendered artifact. -/
def wUnitA2 : UnitRec :=
  { unit := [], confidence := [],
    sources := some [{ field := some "buyerName", chunk_id := some "chunk1" }] }

/-- Concrete artifact map with two locators for the same key. -/
def wCutout2 : CutoutMap := [("unit1_buyerName", ["loc1", "loc2"])]

/-- Concrete Pass-A unit with no citations (for the citation-count
counterexample). -/
def wUnitA3 : UnitRec := { unit := [], confidence := [], sources := some [] }

/-- Concrete Pass-B unit with two same-field citations, the second carrying
a null chunk identifier (for the citation-count counterexample). -/
def wUnitB3 : UnitRec :=
  { unit := [], confidence := [],
    sources := some [{ field := some "f", chunk_id := some "x" },
                     { field := some "f", chunk_id := none }] }

/-- Spec-level description of deduplication (from the spec's words, for
comparison with the code's seen-set loop): keep each element and erase every
later element carrying the same `(field, chunk_ref)` key, so exactly the
first occurrence of each key survives, in first-seen order. -/
def specFirstOcc : List SourceIn → List SourceIn
  | [] => []
  | s :: rest =>
    s :: specFirstOcc (rest.filter (fun t => decide (keyIn t ≠ keyIn s)))
termination_by l => l.length
decreasing_by exact Nat.lt_succ_of_le (List.length_filter_le _ _)

/-! Exception-explicit variant: the same merge with every fallible Python
operation (list subscripts) made explicit in the `Except` monad, to state
that the merge never raises on well-shaped input. -/

/-- Python `l[i]`: the element, or an `IndexError`. -/
def getE {α : Type _} (l : List α) (i : Nat) : Except String α :=
  match l[i]? with
  | some x => .ok x
  | none => .error "list index out of range"

/-- Python `l[0]`: the head, or an `IndexError`. -/
def headE {α : Type _} (l : List α) : Except String α :=
  match l with
  | [] => .error "list index out of range"
  | x :: _ => .ok x

/-- Exception-explicit `resolveContract`: the `s3_uris[0]` subscript is a
fallible operation guarded by the non-emptiness test, as in the code. -/
def resolveContractE (m : CutoutMap) (unit_number : Nat) (source : SourceIn) :
    Except String SourceOut := do
  let s3_uris := alistGetD m (fieldKey unit_number source.field) []
  if !s3_uris.isEmpty then
    let u ← headE s3_uris
    pure { field := source.field, chunk_id? := some source.chunk_id,
           chunk_file_key := some u }
  else
    pure { field := source.field, chunk_id? := some source.chunk_id,
           chunk_file_key :=
             if source.chunk_id == some "calculated" then none else source.chunk_id }

/-- Exception-explicit `resolveInstallment`. -/
def resolveInstallmentE (m : CutoutMap) (unit_number : Nat) (source : SourceIn) :
    Except String SourceOut := do
  let s3_uris := alistGetD m (fieldKey unit_number source.field) []
  if !s3_uris.isEmpty then
    let u ← headE s3_uris
    pure { field := source.field, chunk_id? := none, chunk_file_key := some u }
  else
    pure { field := source.field, chunk_id? := none, chunk_file_key := source.chunk_id }

/-- Exception-explicit installment-source loop. -/
def addInstallmentSourcesE (m : CutoutMap) (unit_number : Nat)
    (acc : List SourceOut) (srcs : List SourceIn) : Except String (List SourceOut) :=
  srcs.foldlM
    (fun acc source => do
      if skipInstallment acc source then
        pure acc
      else
        let r ← resolveInstallmentE m unit_number source
        pure (acc ++ [r]))
    acc

/-- Exception-explicit merged field map: the `installment_result[unit_idx]`
subscript is a fallible operation guarded by the
`unit_idx < len(installment_result)` test, as in the code. -/
def mergeFieldsE (installment_result : List UnitRec)
    (unit_idx : Nat) (contract_unit : UnitRec) : Except String (List (String × Val)) :=
  if unit_idx < installment_result.length then do
    let installment_unit ← getE installment_result unit_idx
    let installment_plans := alistGetD installment_unit.unit "installmentPlans" (Val.vlist [])
    if truthy installment_plans then
      pure (dictInsert contract_unit.unit "installmentPlans" installment_plans)
    else
      pure contract_unit.unit
  else
    pure contract_unit.unit

/-- Exception-explicit merged confidence map. -/
def mergeConfidenceE (installment_result : List UnitRec)
    (unit_idx : Nat) (contract_unit : UnitRec) : Except String (List (String × Val)) :=
  if unit_idx < installment_result.length then do
    let installment_unit ← getE installment_result unit_idx
    pure (dictUpdate contract_unit.confidence installment_unit.confidence)
  else
    pure contract_unit.confidence

/-- Exception-explicit final source list. -/
def allSourcesE (m : CutoutMap) (installment_result : List UnitRec)
    (unit_idx : Nat) (contractSources : List SourceOut) : Except String (List SourceOut) :=
  if unit_idx < installment_result.length then do
    let installment_unit ← getE installment_result unit_idx
    addInstallmentSourcesE m (unit_idx + 1) contractSources
      (dedupe_sources installment_unit.sources)
  else
    pure contractSources

/-- Exception-explicit per-unit merge. -/
def mergeUnitE (m : CutoutMap) (installment_result : List UnitRec)
    (unit_idx : Nat) (contract_unit : UnitRec) : Except String MergedUnit := do
  let mergedFields ← mergeFieldsE installment_result unit_idx contract_unit
  let mergedConfidence ← mergeConfidenceE installment_result unit_idx contract_unit
  let contractSources ←
    (dedupe_sources contract_unit.sources).mapM (resolveContractE m (unit_idx + 1))
  let allSources ← allSourcesE m installment_result unit_idx contractSources
  pure { unit := mergedFields, sources := allSources, confidence := mergedConfidence }

/-- Exception-explicit unit loop. -/
def mergeFromE (m : CutoutMap) (installment_result : List UnitRec) :
    Nat → List UnitRec → Except String (List MergedUnit)
  | _, [] => pure []
  | idx, u :: rest => do
    let mu ← mergeUnitE m installment_result idx u
    let more ← mergeFromE m installment_result (idx + 1) rest
    pure (mu :: more)

/-- Exception-explicit `merge_results_with_cutouts`. -/
def merge_results_with_cutoutsE (contract_result installment_result : List UnitRec)
    (s3_cutout_paths : CutoutMap) : Except String (List MergedUnit) :=
  mergeFromE s3_cutout_paths installment_result 0 contract_result

/-! ### Structural lemmas about the unit loop -/

theorem mergeFrom_length (m : CutoutMap) (b : List UnitRec) :
    ∀ (a : List UnitRec) (idx : Nat), (mergeFrom m b idx a).length = a.length := by
  intro a
  induction a with
  | nil => intro idx; rfl
  | cons u rest ih =>
    intro idx
    simp [mergeFrom, ih (idx + 1)]

theorem mergeFrom_getElem? (m : CutoutMap) (b : List UnitRec) :
    ∀ (a : List UnitRec) (idx i : Nat),
      (mergeFrom m b idx a)[i]? = (a[i]?).map (fun u => mergeUnit m b (idx + i) u) := by
  intro a
  induction a with
  | nil => intro idx i; simp [mergeFrom]
  | cons u rest ih =>
    intro idx i
    cases i with
    | zero => simp [mergeFrom]
    | succ j =>
      have harith : idx + 1 + j = idx + (j + 1) := by omega
      simp [mergeFrom, ih (idx + 1) j, harith]

theorem merge_getElem? (a b : List UnitRec) (m : CutoutMap) (i : Nat) :
    (merge_results_with_cutouts a b m)[i]? = (a[i]?).map (fun u => mergeUnit m b i u) := by
  have h := mergeFrom_getElem? m b a 0 i
  simpa [merge_results_with_cutouts] using h

/-! ### C2 / C3: output length -/

/-- C2: for every Pass-A list, Pass-B list and artifact map, the list
returned by `merge_results_with_cutouts` has length equal to the length of
the Pass-A list, regardless of the Pass-B list's length. -/
theorem merged_length_eq_passA (a b : List UnitRec) (m : CutoutMap) :
    (merge_results_with_cutouts a b m).length = a.length :=
  mergeFrom_length m b a 0

/-- C3 counterexample: with an empty Pass-A list and a one-element Pass-B
list, the merged output has length 0, not `max 0 1 = 1`: the Pass-B unit at
index 0 (beyond Pass-A's length) is dropped. -/
theorem merged_length_max_counterexample :
    ¬ ((merge_results_with_cutouts [] [{ unit := [], confidence := [], sources := none }] []).length
        = max ([] : List UnitRec).length
            [({ unit := [], confidence := [], sources := none } : UnitRec)].length) := by
  simp [merge_results_with_cutouts, mergeFrom]

/-- C3 (amended): the merged result is an ordered sequence of unit records
of length equal to the Pass-A list's length; each Pass-A unit at index `i`
is emitted as the merge of that unit with the Pass-B data at `i`; Pass-B
units at indices at or beyond the Pass-A list's length do not appear. -/
theorem merged_passA_anchored (a b : List UnitRec) (m : CutoutMap) :
    (merge_results_with_cutouts a b m).length = a.length ∧
    (∀ i u, a[i]? = some u →
      (merge_results_with_cutouts a b m)[i]? = some (mergeUnit m b i u)) := by
  refine ⟨mergeFrom_length m b a 0, ?_⟩
  intro i u hu
  rw [merge_getElem?, hu]
  rfl

/-- Witness for C3 (amended) at a concrete input. -/
theorem merged_passA_anchored_witness :
    (merge_results_with_cutouts [{ unit := [], confidence := [], sources := none }] [] []).length = 1 ∧
    (merge_results_with_cutouts [{ unit := [], confidence := [], sources := none }] [] [])[0]?
      = some (mergeUnit [] [] 0 { unit := [], confidence := [], sources := none }) :=
  ⟨(merged_passA_anchored [{ unit := [], confidence := [], sources := none }] [] []).1,
   (merged_passA_anchored [{ unit := [], confidence := [], sources := none }] [] []).2 0
     { unit := [], confidence := [], sources := none } rfl⟩

/-! ### C4: the citation deduplicator -/

theorem specFirstOcc_sublist :
    ∀ (n : Nat) (l : List SourceIn), l.length ≤ n → List.Sublist (specFirstOcc l) l := by
  intro n
  induction n with
  | zero =>
    intro l hl
    rw [List.length_eq_zero.mp (Nat.le_zero.mp hl)]
    simp [specFirstOcc]
  | succ n ih =>
    intro l hl
    match l with
    | [] => simp [specFirstOcc]
    | s :: rest =>
      rw [specFirstOcc]
      refine List.Sublist.cons₂ s ?_
      exact ((ih _ (le_trans (List.length_filter_le _ _) (Nat.le_of_succ_le_succ hl)))).trans
        (List.filter_sublist rest)

theorem specFirstOcc_mem {l : List SourceIn} {t : SourceIn}
    (ht : t ∈ specFirstOcc l) : t ∈ l :=
  (specFirstOcc_sublist l.length l le_rfl).subset ht

theorem specFirstOcc_keys_nodup :
    ∀ (n : Nat) (l : List SourceIn), l.length ≤ n → ((specFirstOcc l).map keyIn).Nodup := by
  intro n
  induction n with
  | zero =>
    intro l hl
    rw [List.length_eq_zero.mp (Nat.le_zero.mp hl)]
    simp [specFirstOcc]
  | succ n ih =>
    intro l hl
    match l with
    | [] => simp [specFirstOcc]
    | s :: rest =>
      rw [specFirstOcc]
      simp only [List.map_cons, List.nodup_cons]
      constructor
      · intro hmem
        rcases List.mem_map.mp hmem with ⟨t, ht, hkey⟩
        have htf := specFirstOcc_mem ht
        have := List.of_mem_filter htf
        simp only [decide_eq_true_eq] at this
        exact this hkey
      · exact ih _ (le_trans (List.length_filter_le _ _) (Nat.le_of_succ_le_succ hl))

theorem specFirstOcc_key_covered :
    ∀ (n : Nat) (l : List SourceIn), l.length ≤ n →
      ∀ s ∈ l, ∃ t ∈ specFirstOcc l, keyIn t = keyIn s := by
  intro n
  induction n with
  | zero =>
    intro l hl s hs
    rw [List.length_eq_zero.mp (Nat.le_zero.mp hl)] at hs
    exact absurd hs (List.not_mem_nil s)
  | succ n ih =>
    intro l hl s hs
    match l with
    | [] => exact absurd hs (List.not_mem_nil s)
    | a :: rest =>
      rw [specFirstOcc]
      by_cases hkey : keyIn s = keyIn a
      · exact ⟨a, List.mem_cons_self _ _, hkey.symm⟩
      · have hsrest : s ∈ rest := by
          rcases List.mem_cons.mp hs with h | h
          · exact absurd (h ▸ rfl) hkey
          · exact h
        have hsf : s ∈ rest.filter (fun t => decide (keyIn t ≠ keyIn a)) :=
          List.mem_filter.mpr ⟨hsrest, by simpa using hkey⟩
        rcases ih _ (le_trans (List.length_filter_le _ _) (Nat.le_of_succ_le_succ hl)) s hsf
          with ⟨t, ht, hteq⟩
        exact ⟨t, List.mem_cons_of_mem _ ht, hteq⟩

theorem dedupeGo_eq_specFirstOcc :
    ∀ (n : Nat) (l : List SourceIn), l.length ≤ n →
      ∀ (seen : List (Option String × Option String)),
        dedupeGo l seen = specFirstOcc (l.filter (fun s => decide (keyIn s ∉ seen))) := by
  intro n
  induction n with
  | zero =>
    intro l hl seen
    rw [List.length_eq_zero.mp (Nat.le_zero.mp hl)]
    simp [dedupeGo, specFirstOcc]
  | succ n ih =>
    intro l hl seen
    match l with
    | [] => simp [dedupeGo, specFirstOcc]
    | s :: rest =>
      rw [dedupeGo]
      by_cases hs : keyIn s ∈ seen
      · rw [if_pos hs, List.filter_cons_of_neg (by simpa using hs)]
        exact ih _ (Nat.le_of_succ_le_succ hl) seen
      · rw [if_neg hs, List.filter_cons_of_pos (by simpa using hs), specFirstOcc,
          List.filter_filter]
        rw [ih _ (Nat.le_of_succ_le_succ hl) (keyIn s :: seen)]
        have hf : List.filter (fun t => decide (keyIn t ∉ keyIn s :: seen)) rest
            = List.filter (fun t => decide (keyIn t ≠ keyIn s) && decide (keyIn t ∉ seen)) rest := by
          apply List.filter_congr
          intro t _
          simp [List.mem_cons, not_or]
        rw [hf]

/-- C4: the deduplicator absorbs a null list; on a list it returns exactly
the first occurrence of each `(field, chunk_id)` key in first-seen order
(the spec-level `specFirstOcc`), a subsequence of the input whose keys are
pairwise distinct; every input citation's key — in particular each of two
same-field citations with different chunk identifiers — is still
represented in the output. -/
theorem dedupe_sources_correct :
    dedupe_sources none = [] ∧
    ∀ l : List SourceIn,
      dedupe_sources (some l) = specFirstOcc l ∧
      List.Sublist (dedupe_sources (some l)) l ∧
      ((dedupe_sources (some l)).map keyIn).Nodup ∧
      ∀ s ∈ l, ∃ t ∈ dedupe_sources (some l), keyIn t = keyIn s := by
  constructor
  · rfl
  · intro l
    have hbase : dedupe_sources (some l) = specFirstOcc l := by
      show dedupeGo l [] = specFirstOcc l
      rw [dedupeGo_eq_specFirstOcc l.length l le_rfl []]
      congr 1
      exact List.filter_eq_self.mpr (fun a _ => by simp)
    refine ⟨hbase, ?_, ?_, ?_⟩
    · rw [hbase]; exact specFirstOcc_sublist l.length l le_rfl
    · rw [hbase]; exact specFirstOcc_keys_nodup l.length l le_rfl
    · rw [hbase]; exact specFirstOcc_key_covered l.length l le_rfl

/-- Witness for C4 on the spec's `[A, B, A, C]` example, with `A` and `B`
sharing a field but not a chunk identifier: the output is `[A, B, C]` and
`B`'s key survives. -/
theorem dedupe_sources_correct_witness :
    dedupe_sources (some
        [⟨some "f", some "c1"⟩, ⟨some "f", some "c2"⟩,
         ⟨some "f", some "c1"⟩, ⟨some "g", none⟩])
      = specFirstOcc
        [⟨some "f", some "c1"⟩, ⟨some "f", some "c2"⟩,
         ⟨some "f", some "c1"⟩, ⟨some "g", none⟩] ∧
    (∃ t ∈ dedupe_sources (some
        [⟨some "f", some "c1"⟩, ⟨some "f", some "c2"⟩,
         ⟨some "f", some "c1"⟩, ⟨some "g", none⟩]),
      keyIn t = keyIn ⟨some "f", some "c2"⟩) ∧
    dedupe_sources (some
        [⟨some "f", some "c1"⟩, ⟨some "f", some "c2"⟩,
         ⟨some "f", some "c1"⟩, ⟨some "g", none⟩])
      = [⟨some "f", some "c1"⟩, ⟨some "f", some "c2"⟩, ⟨some "g", none⟩] :=
  ⟨(dedupe_sources_correct.2 _).1,
   (dedupe_sources_correct.2 _).2.2.2 ⟨some "f", some "c2"⟩ (by decide),
   by decide⟩

/-! ### Dictionary lemmas -/

theorem find?_replace_eq {α : Type _} (k : String) (v : α) :
    ∀ (m : List (String × α)), m.any (fun kv => kv.1 == k) = true →
      List.find? (fun kv => kv.1 == k)
          (m.map (fun kv => if kv.1 == k then (k, v) else kv)) = some (k, v) := by
  intro m
  induction m with
  | nil => intro h; simp at h
  | cons kv rest ih =>
    intro h
    obtain ⟨k₀, v₀⟩ := kv
    rw [List.map_cons]
    by_cases hk : k₀ = k
    · subst hk
      have hif : (if (((k₀, v₀) : String × α).1 == k₀) = true then (k₀, v) else (k₀, v₀))
          = (k₀, v) := by simp
      rw [hif, List.find?_cons_of_pos _ (by simp)]
    · have h' : rest.any (fun kv => kv.1 == k) = true := by
        simpa [hk] using h
      have hif : (if (((k₀, v₀) : String × α).1 == k) = true then (k, v) else (k₀, v₀))
          = (k₀, v₀) := by simp [hk]
      rw [hif, List.find?_cons_of_neg _ (by simpa using hk)]
      exact ih h'

theorem find?_replace_ne {α : Type _} (k k' : String) (v : α) (hne : k' ≠ k) :
    ∀ (m : List (String × α)),
      List.find? (fun kv => kv.1 == k')
          (m.map (fun kv => if kv.1 == k then (k, v) else kv))
        = List.find? (fun kv => kv.1 == k') m := by
  intro m
  induction m with
  | nil => rfl
  | cons kv rest ih =>
    obtain ⟨k₀, v₀⟩ := kv
    rw [List.map_cons]
    by_cases hk : k₀ = k
    · subst hk
      have hk' : ¬ (k₀ = k') := fun h => hne h.symm
      have hif : (if (((k₀, v₀) : String × α).1 == k₀) = true then (k₀, v) else (k₀, v₀))
          = (k₀, v) := by simp
      rw [hif, List.find?_cons_of_neg _ (by simpa using hk'),
        List.find?_cons_of_neg _ (by simpa using hk')]
      exact ih
    · have hif : (if (((k₀, v₀) : String × α).1 == k) = true then (k, v) else (k₀, v₀))
          = (k₀, v₀) := by simp [hk]
      rw [hif]
      by_cases hq : k₀ = k'
      · rw [List.find?_cons_of_pos _ (by simpa using hq),
          List.find?_cons_of_pos _ (by simpa using hq)]
      · rw [List.find?_cons_of_neg _ (by simpa using hq),
          List.find?_cons_of_neg _ (by simpa using hq)]
        exact ih

theorem alistLookup_eq_none_of_not_mem {α : Type _} (m : List (String × α)) (k : String)
    (h : k ∉ m.map Prod.fst) : alistLookup m k = none := by
  unfold alistLookup
  rw [List.find?_eq_none.mpr]
  · rfl
  · intro x hx hp
    exact h (List.mem_map.mpr ⟨x, hx, by simpa using hp⟩)

theorem alistLookup_dictInsert_self {α : Type _} (m : List (String × α)) (k : String) (v : α) :
    alistLookup (dictInsert m k v) k = some v := by
  unfold dictInsert alistLookup
  by_cases h : m.any (fun kv => kv.1 == k) = true
  · rw [if_pos h, find?_replace_eq k v m h]
    rfl
  · rw [if_neg h]
    have hnone : m.find? (fun kv => kv.1 == k) = none := by
      rw [List.find?_eq_none]
      intro x hx hp
      exact h (List.any_eq_true.mpr ⟨x, hx, hp⟩)
    rw [List.find?_append, hnone]
    simp

theorem alistLookup_dictInsert_ne {α : Type _} (m : List (String × α)) (k k' : String) (v : α)
    (hne : k' ≠ k) :
    alistLookup (dictInsert m k v) k' = alistLookup m k' := by
  unfold dictInsert alistLookup
  by_cases h : m.any (fun kv => kv.1 == k) = true
  · rw [if_pos h, find?_replace_ne k k' v hne m]
  · rw [if_neg h, List.find?_append]
    have hk' : ¬ (k = k') := fun hh => hne hh.symm
    have hsingle : List.find? (fun kv => kv.1 == k') [(k, v)] = none := by
      simp [hk']
    rw [hsingle]
    simp

theorem alistLookup_dictUpdate {α : Type _} :
    ∀ (b a : List (String × α)), (b.map Prod.fst).Nodup →
      ∀ k, alistLookup (dictUpdate a b) k = (alistLookup b k).or (alistLookup a k) := by
  intro b
  induction b with
  | nil =>
    intro a _ k
    simp [dictUpdate, alistLookup]
  | cons kv rest ih =>
    intro a hnodup k
    rw [List.map_cons] at hnodup
    obtain ⟨hk₁, hrest⟩ := List.nodup_cons.mp hnodup
    have hstep : dictUpdate a (kv :: rest) = dictUpdate (dictInsert a kv.1 kv.2) rest := rfl
    rw [hstep, ih (dictInsert a kv.1 kv.2) hrest k]
    by_cases hkk : k = kv.1
    · have hrnone : alistLookup rest k = none :=
        alistLookup_eq_none_of_not_mem rest k (by rw [hkk]; exact hk₁)
      have hcons : alistLookup (kv :: rest) kv.1 = some kv.2 := by
        unfold alistLookup
        rw [List.find?_cons_of_pos _ (by simp)]
        rfl
      rw [hrnone, hkk, alistLookup_dictInsert_self, hcons]
      rfl
    · have hkk' : ¬ (kv.1 = k) := fun hh => hkk hh.symm
      have hcons : alistLookup (kv :: rest) k = alistLookup rest k := by
        unfold alistLookup
        rw [List.find?_cons_of_neg _ (by simpa using hkk')]
      rw [alistLookup_dictInsert_ne a kv.1 k kv.2 hkk, hcons]

/-! ### Projections of `mergeUnit` -/

theorem mergeUnit_unit_some (m : CutoutMap) (b : List UnitRec) (idx : Nat) (u inst : UnitRec)
    (hb : b[idx]? = some inst) :
    (mergeUnit m b idx u).unit =
      (if truthy (alistGetD inst.unit "installmentPlans" (Val.vlist [])) then
        dictInsert u.unit "installmentPlans" (alistGetD inst.unit "installmentPlans" (Val.vlist []))
      else u.unit) := by
  simp [mergeUnit, hb]

theorem mergeUnit_unit_none (m : CutoutMap) (b : List UnitRec) (idx : Nat) (u : UnitRec)
    (hb : b[idx]? = none) :
    (mergeUnit m b idx u).unit = u.unit := by
  simp [mergeUnit, hb]

theorem mergeUnit_confidence_some (m : CutoutMap) (b : List UnitRec) (idx : Nat) (u inst : UnitRec)
    (hb : b[idx]? = some inst) :
    (mergeUnit m b idx u).confidence = dictUpdate u.confidence inst.confidence := by
  simp [mergeUnit, hb]

theorem mergeUnit_confidence_none (m : CutoutMap) (b : List UnitRec) (idx : Nat) (u : UnitRec)
    (hb : b[idx]? = none) :
    (mergeUnit m b idx u).confidence = u.confidence := by
  simp [mergeUnit, hb]

theorem mergeUnit_sources_some (m : CutoutMap) (b : List UnitRec) (idx : Nat) (u inst : UnitRec)
    (hb : b[idx]? = some inst) :
    (mergeUnit m b idx u).sources =
      addInstallmentSources m (idx + 1)
        ((dedupe_sources u.sources).map (resolveContract m (idx + 1)))
        (dedupe_sources inst.sources) := by
  simp [mergeUnit, hb]

theorem mergeUnit_sources_none (m : CutoutMap) (b : List UnitRec) (idx : Nat) (u : UnitRec)
    (hb : b[idx]? = none) :
    (mergeUnit m b idx u).sources =
      (dedupe_sources u.sources).map (resolveContract m (idx + 1)) := by
  simp [mergeUnit, hb]

theorem merged_unit_eq (a b : List UnitRec) (m : CutoutMap) (i : Nat) (u : UnitRec)
    (mu : MergedUnit) (ha : a[i]? = some u)
    (hm : (merge_results_with_cutouts a b m)[i]? = some mu) :
    mu = mergeUnit m b i u := by
  rw [merge_getElem?, ha] at hm
  exact (Option.some_inj.mp hm).symm

/-! ### C6: installment-plan overwrite with frame -/

/-- C6: when a Pass-B counterpart exists and its `installmentPlans` entry is
truthy (a non-empty collection), the merged unit's `installmentPlans` field
equals Pass-B's value exactly and every other field keeps its Pass-A value;
when the counterpart is absent or its `installmentPlans` entry is empty,
the Pass-A field map is emitted unchanged. -/
theorem installment_overwrite_frame (a b : List UnitRec) (m : CutoutMap) (i : Nat)
    (u : UnitRec) (mu : MergedUnit)
    (ha : a[i]? = some u)
    (hm : (merge_results_with_cutouts a b m)[i]? = some mu) :
    (∀ inst, b[i]? = some inst →
      (truthy (alistGetD inst.unit "installmentPlans" (Val.vlist [])) = true →
        alistLookup mu.unit "installmentPlans"
          = some (alistGetD inst.unit "installmentPlans" (Val.vlist [])) ∧
        ∀ k, k ≠ "installmentPlans" → alistLookup mu.unit k = alistLookup u.unit k) ∧
      (truthy (alistGetD inst.unit "installmentPlans" (Val.vlist [])) = false →
        mu.unit = u.unit)) ∧
    (b[i]? = none → mu.unit = u.unit) := by
  have hmu := merged_unit_eq a b m i u mu ha hm
  subst hmu
  refine ⟨?_, ?_⟩
  · intro inst hb
    have hu := mergeUnit_unit_some m b i u inst hb
    refine ⟨?_, ?_⟩
    · intro ht
      rw [hu, if_pos ht]
      exact ⟨alistLookup_dictInsert_self _ _ _,
        fun k hk => alistLookup_dictInsert_ne _ _ _ _ hk⟩
    · intro hf
      rw [hu, if_neg (by simp [hf])]
  · intro hb
    exact mergeUnit_unit_none m b i u hb

/-- Witness for C6 on concrete data: Pass-A plans `[X]`, Pass-B plans
`[Y, Z]`; the merged unit carries `[Y, Z]` and the unrelated field
`"buyer"` keeps its Pass-A value. -/
theorem installment_overwrite_frame_witness :
    alistLookup (mergeUnit [] [wUnitB1] 0 wUnitA1).unit "installmentPlans"
      = some (Val.vlist [Val.vstr "Y", Val.vstr "Z"]) ∧
    alistLookup (mergeUnit [] [wUnitB1] 0 wUnitA1).unit "buyer"
      = alistLookup wUnitA1.unit "buyer" := by
  have h := installment_overwrite_frame [wUnitA1] [wUnitB1] [] 0 wUnitA1
    (mergeUnit [] [wUnitB1] 0 wUnitA1) rfl rfl
  obtain ⟨h1, h2⟩ := (h.1 wUnitB1 rfl).1 rfl
  exact ⟨h1, h2 "buyer" (by decide)⟩

/-! ### C7: confidence precedence -/

/-- C7: when a Pass-B counterpart exists, the merged confidence map's key
set is the union of the two key sets; a key present in Pass-B's confidence
map takes Pass-B's value, any other key keeps Pass-A's value. -/
theorem confidence_precedence (a b : List UnitRec) (m : CutoutMap) (i : Nat)
    (u inst : UnitRec) (mu : MergedUnit)
    (ha : a[i]? = some u) (hb : b[i]? = some inst)
    (hm : (merge_results_with_cutouts a b m)[i]? = some mu)
    (hnd : (inst.confidence.map Prod.fst).Nodup) :
    (∀ k, (alistLookup mu.confidence k).isSome ↔
        ((alistLookup u.confidence k).isSome ∨ (alistLookup inst.confidence k).isSome)) ∧
    (∀ k v, alistLookup inst.confidence k = some v → alistLookup mu.confidence k = some v) ∧
    (∀ k, alistLookup inst.confidence k = none →
      alistLookup mu.confidence k = alistLookup u.confidence k) := by
  have hmu := merged_unit_eq a b m i u mu ha hm
  subst hmu
  have hc := mergeUnit_confidence_some m b i u inst hb
  rw [hc]
  have hl := alistLookup_dictUpdate inst.confidence u.confidence hnd
  refine ⟨?_, ?_, ?_⟩
  · intro k
    rw [hl k]
    cases hik : alistLookup inst.confidence k <;> simp [Option.or]
  · intro k v hkv
    rw [hl k, hkv]
    rfl
  · intro k hk
    rw [hl k, hk]
    rfl

/-- Witness for C7 on concrete data: Pass-A confidence
`{f1: high, f2: low}`, Pass-B confidence `{f1: medium, f3: high}`; the
merged map reads `f1 = medium`, `f2 = low`, `f3 = high`. -/
theorem confidence_precedence_witness :
    alistLookup (mergeUnit [] [wUnitB1] 0 wUnitA1).confidence "f1" = some (Val.vstr "medium") ∧
    alistLookup (mergeUnit [] [wUnitB1] 0 wUnitA1).confidence "f2" = some (Val.vstr "low") ∧
    alistLookup (mergeUnit [] [wUnitB1] 0 wUnitA1).confidence "f3" = some (Val.vstr "high") := by
  have h := confidence_precedence [wUnitA1] [wUnitB1] [] 0 wUnitA1 wUnitB1
    (mergeUnit [] [wUnitB1] 0 wUnitA1) rfl rfl rfl (by simp [wUnitB1])
  exact ⟨h.2.1 "f1" (Val.vstr "medium") rfl, (h.2.2 "f2" rfl).trans rfl,
    h.2.1 "f3" (Val.vstr "high") rfl⟩

/-! ### Provenance of merged source records -/

theorem addInstallmentSources_cons (m : CutoutMap) (n : Nat) (acc : List SourceOut)
    (s : SourceIn) (rest : List SourceIn) :
    addInstallmentSources m n acc (s :: rest)
      = addInstallmentSources m n
          (if skipInstallment acc s then acc else acc ++ [resolveInstallment m n s]) rest := rfl

theorem addInstallmentSources_extends (m : CutoutMap) (n : Nat) :
    ∀ (l : List SourceIn) (acc : List SourceOut),
      ∃ extra, addInstallmentSources m n acc l = acc ++ extra := by
  intro l
  induction l with
  | nil => intro acc; exact ⟨[], (List.append_nil acc).symm⟩
  | cons s rest ih =>
    intro acc
    rw [addInstallmentSources_cons]
    by_cases hskip : skipInstallment acc s = true
    · rw [if_pos hskip]; exact ih acc
    · rw [if_neg hskip]
      obtain ⟨extra, he⟩ := ih (acc ++ [resolveInstallment m n s])
      exact ⟨[resolveInstallment m n s] ++ extra, by rw [he, List.append_assoc]⟩

theorem mem_addInstallmentSources (m : CutoutMap) (n : Nat) :
    ∀ (l : List SourceIn) (acc : List SourceOut) (t : SourceOut),
      t ∈ addInstallmentSources m n acc l →
      t ∈ acc ∨ ∃ s ∈ l, t = resolveInstallment m n s := by
  intro l
  induction l with
  | nil => intro acc t ht; exact Or.inl ht
  | cons s rest ih =>
    intro acc t ht
    rw [addInstallmentSources_cons] at ht
    rcases ih _ t ht with hacc | ⟨s', hs', hts'⟩
    · by_cases hskip : skipInstallment acc s = true
      · rw [if_pos hskip] at hacc
        exact Or.inl hacc
      · rw [if_neg hskip] at hacc
        rcases List.mem_append.mp hacc with h | h
        · exact Or.inl h
        · exact Or.inr ⟨s, List.mem_cons_self _ _, List.mem_singleton.mp h⟩
    · exact Or.inr ⟨s', List.mem_cons_of_mem _ hs', hts'⟩

theorem mergeUnit_sources_provenance (m : CutoutMap) (b : List UnitRec) (idx : Nat)
    (u : UnitRec) (t : SourceOut) (ht : t ∈ (mergeUnit m b idx u).sources) :
    (∃ s ∈ dedupe_sources u.sources, t = resolveContract m (idx + 1) s) ∨
    (∃ inst, b[idx]? = some inst ∧
      ∃ s ∈ dedupe_sources inst.sources, t = resolveInstallment m (idx + 1) s) := by
  cases hb : b[idx]? with
  | none =>
    rw [mergeUnit_sources_none m b idx u hb] at ht
    rcases List.mem_map.mp ht with ⟨s, hs, hts⟩
    exact Or.inl ⟨s, hs, hts.symm⟩
  | some inst =>
    rw [mergeUnit_sources_some m b idx u inst hb] at ht
    rcases mem_addInstallmentSources m (idx + 1) _ _ t ht with hacc | ⟨s, hs, hts⟩
    · rcases List.mem_map.mp hacc with ⟨s, hs, hts⟩
      exact Or.inl ⟨s, hs, hts.symm⟩
    · exact Or.inr ⟨inst, hb ▸ rfl, s, hs, hts⟩

theorem resolveContract_mem_sources (m : CutoutMap) (b : List UnitRec) (idx : Nat)
    (u : UnitRec) (s : SourceIn) (hs : s ∈ dedupe_sources u.sources) :
    resolveContract m (idx + 1) s ∈ (mergeUnit m b idx u).sources := by
  cases hb : b[idx]? with
  | none =>
    rw [mergeUnit_sources_none m b idx u hb]
    exact List.mem_map_of_mem _ hs
  | some inst =>
    rw [mergeUnit_sources_some m b idx u inst hb]
    obtain ⟨extra, he⟩ := addInstallmentSources_extends m (idx + 1)
      (dedupe_sources inst.sources)
      ((dedupe_sources u.sources).map (resolveContract m (idx + 1)))
    rw [he]
    exact List.mem_append_left _ (List.mem_map_of_mem _ hs)

/-! ### Resolver facts -/

theorem resolveContract_field (m : CutoutMap) (n : Nat) (s : SourceIn) :
    (resolveContract m n s).field = s.field := rfl

theorem resolveInstallment_field (m : CutoutMap) (n : Nat) (s : SourceIn) :
    (resolveInstallment m n s).field = s.field := rfl

theorem resolveContract_chunkId (m : CutoutMap) (n : Nat) (s : SourceIn) :
    (resolveContract m n s).chunk_id? = some s.chunk_id := rfl

theorem resolveInstallment_chunkId (m : CutoutMap) (n : Nat) (s : SourceIn) :
    (resolveInstallment m n s).chunk_id? = none := rfl

theorem resolveContract_calculated (m : CutoutMap) (n : Nat) (s : SourceIn)
    (hc : s.chunk_id = some "calculated")
    (hno : alistGetD m (fieldKey n s.field) [] = ([] : List String)) :
    (resolveContract m n s).chunk_file_key = none := by
  simp [resolveContract, hno, hc]

theorem resolveInstallment_no_artifact (m : CutoutMap) (n : Nat) (s : SourceIn)
    (hno : alistGetD m (fieldKey n s.field) [] = ([] : List String)) :
    (resolveInstallment m n s).chunk_file_key = s.chunk_id := by
  simp [resolveInstallment, hno]

theorem resolveContract_artifact (m : CutoutMap) (n : Nat) (s : SourceIn)
    (loc : String) (rest : List String)
    (hart : alistGetD m (fieldKey n s.field) [] = loc :: rest) :
    (resolveContract m n s).chunk_file_key = some loc := by
  simp [resolveContract, hart]

theorem resolveInstallment_artifact (m : CutoutMap) (n : Nat) (s : SourceIn)
    (loc : String) (rest : List String)
    (hart : alistGetD m (fieldKey n s.field) [] = loc :: rest) :
    (resolveInstallment m n s).chunk_file_key = some loc := by
  simp [resolveInstallment, hart]

/-! ### C1: asymmetric "calculated" handling -/

/-- C1: with no artifact for the looked-up key, a deduplicated Pass-A
citation whose chunk identifier is the literal `"calculated"` is emitted
with a null `chunk_file_key`, whereas every Pass-B-contributed source
record (recognisable by its omitted `chunk_id` key) passes its origin
citation's chunk identifier through unchanged — including the literal
`"calculated"`. -/
theorem calculated_asymmetry (a b : List UnitRec) (m : CutoutMap) (i : Nat)
    (u : UnitRec) (mu : MergedUnit)
    (ha : a[i]? = some u) (hm : (merge_results_with_cutouts a b m)[i]? = some mu) :
    (∀ s ∈ dedupe_sources u.sources, s.chunk_id = some "calculated" →
      alistGetD m (fieldKey (i + 1) s.field) [] = ([] : List String) →
      resolveContract m (i + 1) s ∈ mu.sources ∧
      (resolveContract m (i + 1) s).chunk_file_key = none) ∧
    (∀ t ∈ mu.sources, t.chunk_id? = none →
      ∃ inst, b[i]? = some inst ∧ ∃ s ∈ dedupe_sources inst.sources,
        t = resolveInstallment m (i + 1) s ∧
        (alistGetD m (fieldKey (i + 1) s.field) [] = ([] : List String) →
          t.chunk_file_key = s.chunk_id)) := by
  have hmu := merged_unit_eq a b m i u mu ha hm
  subst hmu
  constructor
  · intro s hs hc hno
    exact ⟨resolveContract_mem_sources m b i u s hs,
      resolveContract_calculated m (i + 1) s hc hno⟩
  · intro t ht htnone
    rcases mergeUnit_sources_provenance m b i u t ht with ⟨s, hs, hts⟩ | ⟨inst, hb, s, hs, hts⟩
    · exfalso
      rw [hts, resolveContract_chunkId] at htnone
      exact Option.noConfusion htnone
    · refine ⟨inst, hb, s, hs, hts, ?_⟩
      intro hno
      rw [hts]
      exact resolveInstallment_no_artifact m (i + 1) s hno

/-- Witness for C1: the Pass-A `"calculated"` citation of `wUnitA1`
resolves to a null `chunk_file_key`; the Pass-B citation of `wUnitB1`
passes its chunk identifier through. -/
theorem calculated_asymmetry_witness :
    ((resolveContract [] 1 { field := some "total", chunk_id := some "calculated" })
        ∈ (mergeUnit [] [wUnitB1] 0 wUnitA1).sources ∧
      (resolveContract [] 1
        { field := some "total", chunk_id := some "calculated" }).chunk_file_key = none) ∧
    (resolveInstallment [] 1
        { field := some "parcelValue", chunk_id := some "chunk9" }).chunk_file_key
      = some "chunk9" := by
  have h := calculated_asymmetry [wUnitA1] [wUnitB1] [] 0 wUnitA1
    (mergeUnit [] [wUnitB1] 0 wUnitA1) rfl rfl
  refine ⟨h.1 _ (by decide) rfl rfl, ?_⟩
  have h2 := h.2
    (resolveInstallment [] 1 { field := some "parcelValue", chunk_id := some "chunk9" })
    (by decide) rfl
  obtain ⟨inst, hinst, s, hs, hts, himp⟩ := h2
  have hinst' : wUnitB1 = inst := by simpa using hinst
  subst hinst'
  have hd : dedupe_sources wUnitB1.sources
      = [{ field := some "parcelValue", chunk_id := some "chunk9" }] := by decide
  rw [hd] at hs
  have hs' : s = { field := some "parcelValue", chunk_id := some "chunk9" } := by
    simpa using hs
  subst hs'
  exact himp rfl

/-! ### C8: artifact first-wins -/

/-- C8: any source record of unit `i` in the merged output — from either
pass — whose field key has a non-empty locator list in the artifact map is
emitted with `chunk_file_key` equal to that list's first locator. -/
theorem artifact_first_wins (a b : List UnitRec) (m : CutoutMap) (i : Nat)
    (u : UnitRec) (mu : MergedUnit) (t : SourceOut) (loc : String) (locRest : List String)
    (ha : a[i]? = some u) (hm : (merge_results_with_cutouts a b m)[i]? = some mu)
    (ht : t ∈ mu.sources)
    (hart : alistGetD m (fieldKey (i + 1) t.field) [] = loc :: locRest) :
    t.chunk_file_key = some loc := by
  have hmu := merged_unit_eq a b m i u mu ha hm
  subst hmu
  rcases mergeUnit_sources_provenance m b i u t ht with ⟨s, hs, hts⟩ | ⟨inst, hb, s, hs, hts⟩
  · subst hts
    exact resolveContract_artifact m (i + 1) s loc locRest hart
  · subst hts
    exact resolveInstallment_artifact m (i + 1) s loc locRest hart

/-- Witness for C8: artifact map `{"unit1_buyerName": ["loc1", "loc2"]}`
resolves the `buyerName` citation to `"loc1"`. -/
theorem artifact_first_wins_witness :
    (resolveContract wCutout2 1
        { field := some "buyerName", chunk_id := some "chunk1" }).chunk_file_key
      = some "loc1" :=
  artifact_first_wins [wUnitA2] [] wCutout2 0 wUnitA2 (mergeUnit wCutout2 [] 0 wUnitA2)
    (resolveContract wCutout2 1 { field := some "buyerName", chunk_id := some "chunk1" })
    "loc1" ["loc2"] rfl rfl (by decide) (by decide)

/-! ### C10: output source shape differs by originating pass -/

/-- C10: every merged source record either stems from a deduplicated Pass-A
citation and carries the `chunk_id` key (with that citation's identifier),
or stems from a deduplicated Pass-B citation and omits the `chunk_id` key
even though the Pass-B citation may have carried one. -/
theorem source_shape_by_pass (a b : List UnitRec) (m : CutoutMap) (i : Nat)
    (u : UnitRec) (mu : MergedUnit)
    (ha : a[i]? = some u) (hm : (merge_results_with_cutouts a b m)[i]? = some mu) :
    ∀ t ∈ mu.sources,
      (∃ s ∈ dedupe_sources u.sources,
        t = resolveContract m (i + 1) s ∧ t.chunk_id? = some s.chunk_id) ∨
      (∃ inst, b[i]? = some inst ∧ ∃ s ∈ dedupe_sources inst.sources,
        t = resolveInstallment m (i + 1) s ∧ t.chunk_id? = none) := by
  have hmu := merged_unit_eq a b m i u mu ha hm
  subst hmu
  intro t ht
  rcases mergeUnit_sources_provenance m b i u t ht with ⟨s, hs, hts⟩ | ⟨inst, hb, s, hs, hts⟩
  · exact Or.inl ⟨s, hs, hts, by rw [hts, resolveContract_chunkId]⟩
  · exact Or.inr ⟨inst, hb, s, hs, hts, by rw [hts, resolveInstallment_chunkId]⟩

/-- Witness for C10: in the concrete merge of `wUnitA1` with `wUnitB1`, the
Pass-A-contributed record carries the `chunk_id` key and the
Pass-B-contributed record omits it. -/
theorem source_shape_by_pass_witness :
    (resolveContract [] 1 { field := some "total", chunk_id := some "calculated" }).chunk_id?
      = some (some "calculated") ∧
    (resolveInstallment [] 1 { field := some "parcelValue", chunk_id := some "chunk9" }).chunk_id?
      = none := by
  have h := source_shape_by_pass [wUnitA1] [wUnitB1] [] 0 wUnitA1
    (mergeUnit [] [wUnitB1] 0 wUnitA1) rfl rfl
  constructor
  · have h1 := h (resolveContract [] 1 { field := some "total", chunk_id := some "calculated" })
      (by decide)
    rcases h1 with ⟨s, hs, hts, hc⟩ | ⟨inst, hb, s, hs, hts, hc⟩
    · have hd : dedupe_sources wUnitA1.sources
          = [{ field := some "total", chunk_id := some "calculated" }] := by decide
      rw [hd] at hs
      have hs' : s = { field := some "total", chunk_id := some "calculated" } := by
        simpa using hs
      subst hs'
      exact hc
    · rw [resolveContract_chunkId] at hc
      exact Option.noConfusion hc
  · have h2 := h
      (resolveInstallment [] 1 { field := some "parcelValue", chunk_id := some "chunk9" })
      (by decide)
    rcases h2 with ⟨s, hs, hts, hc⟩ | ⟨inst, hb, s, hs, hts, hc⟩
    · rw [resolveInstallment_chunkId] at hc
      exact Option.noConfusion hc
    · exact hc

/-! ### C5: citation count -/

theorem any_map_eq {α β : Type _} (f : α → β) (p : β → Bool) :
    ∀ l : List α, (l.map f).any p = l.any (fun x => p (f x)) := by
  intro l
  induction l with
  | nil => rfl
  | cons x xs ih =>
    rw [List.map_cons, List.any_cons, List.any_cons, ih]

theorem addInstallmentSources_length_core (m : CutoutMap) (n : Nat) (dA : List SourceIn) :
    ∀ (l : List SourceIn) (acc₁ : List SourceOut),
      (∀ t ∈ acc₁, t.chunk_id? = none) →
      (∀ s ∈ l, s.chunk_id ≠ none) →
      (addInstallmentSources m n ((dA.map (resolveContract m n)) ++ acc₁) l).length
        = dA.length + acc₁.length
          + (l.filter (fun s => !(dA.any (fun t => sameKey t s)))).length := by
  intro l
  induction l with
  | nil =>
    intro acc₁ _ _
    simp [addInstallmentSources]
  | cons s rest ih =>
    intro acc₁ hnone hl
    have hs0 : s.chunk_id ≠ none := hl s (List.mem_cons_self _ _)
    have hrest : ∀ s' ∈ rest, s'.chunk_id ≠ none :=
      fun s' hs' => hl s' (List.mem_cons_of_mem _ hs')
    obtain ⟨c, hc⟩ := Option.ne_none_iff_exists'.mp hs0
    have hskip : skipInstallment (dA.map (resolveContract m n) ++ acc₁) s
        = dA.any (fun t => sameKey t s) := by
      unfold skipInstallment
      rw [List.any_append]
      have hacc : acc₁.any (fun t => t.field == s.field && t.chunkIdGet == s.chunk_id)
          = false := by
        rw [List.any_eq_false]
        intro t htmem
        have h0 := hnone t htmem
        simp [SourceOut.chunkIdGet, h0, hc]
      rw [hacc, Bool.or_false, any_map_eq]
      rfl
    rw [addInstallmentSources_cons, hskip]
    by_cases hA : dA.any (fun t => sameKey t s) = true
    · rw [hA, if_pos rfl, List.filter_cons_of_neg (by simp [hA])]
      exact ih acc₁ hnone hrest
    · rw [Bool.not_eq_true] at hA
      rw [hA, if_neg (by simp), List.filter_cons_of_pos (by simp [hA])]
      have hnone' : ∀ t ∈ acc₁ ++ [resolveInstallment m n s], t.chunk_id? = none := by
        intro t htmem
        rcases List.mem_append.mp htmem with h | h
        · exact hnone t h
        · rw [List.mem_singleton.mp h]
          exact resolveInstallment_chunkId m n s
      have := ih (acc₁ ++ [resolveInstallment m n s]) hnone' hrest
      rw [← List.append_assoc] at this
      rw [this]
      simp
      omega

/-- C5 counterexample: Pass-A has no citations, deduplicated Pass-B has the
two distinct-key citations `(f, x)` and `(f, null)`; the claimed formula
gives `0 + 2 - 0 = 2` merged citations, but the code emits only 1 — the
null-chunk-id Pass-B citation is dropped against the earlier appended
Pass-B source, whose stored record omits `chunk_id` and therefore reads
back the same `(f, null)` key. -/
theorem citation_count_counterexample :
    ¬ (((merge_results_with_cutouts [wUnitA3] [wUnitB3] [])[0]?).map
          (fun mu => mu.sources.length)
        = some ((dedupe_sources wUnitA3.sources).length
            + (dedupe_sources wUnitB3.sources).length
            - ((dedupe_sources wUnitB3.sources).filter (fun s =>
                (dedupe_sources wUnitA3.sources).any (fun t => sameKey t s))).length)) := by
  decide

/-- C5 (amended): the count formula holds whenever no deduplicated Pass-B
citation carries a null chunk identifier: the merged citation list length
is the deduplicated Pass-A length plus the deduplicated Pass-B length
minus the number of exact key overlaps; without a Pass-B counterpart the
merged list is exactly the deduplicated Pass-A list.  (A Pass-B citation
with a null chunk identifier can additionally be dropped against an
earlier appended Pass-B citation of the same field, because appended
records omit the `chunk_id` key.) -/
theorem citation_count (a b : List UnitRec) (m : CutoutMap) (i : Nat)
    (u : UnitRec) (mu : MergedUnit)
    (ha : a[i]? = some u) (hm : (merge_results_with_cutouts a b m)[i]? = some mu) :
    ((b[i]? = none) → mu.sources.length = (dedupe_sources u.sources).length) ∧
    (∀ inst, b[i]? = some inst →
      (∀ s ∈ dedupe_sources inst.sources, s.chunk_id ≠ none) →
      mu.sources.length
        = (dedupe_sources u.sources).length + (dedupe_sources inst.sources).length
          - ((dedupe_sources inst.sources).filter (fun s =>
              (dedupe_sources u.sources).any (fun t => sameKey t s))).length) := by
  have hmu := merged_unit_eq a b m i u mu ha hm
  subst hmu
  constructor
  · intro hb
    rw [mergeUnit_sources_none m b i u hb, List.length_map]
  · intro inst hb hnn
    rw [mergeUnit_sources_some m b i u inst hb]
    have hcore := addInstallmentSources_length_core m (i + 1) (dedupe_sources u.sources)
      (dedupe_sources inst.sources) []
      (fun t ht => absurd ht (List.not_mem_nil t)) hnn
    rw [List.append_nil] at hcore
    rw [hcore]
    have hpart := List.length_eq_length_filter_add
      (l := dedupe_sources inst.sources)
      (fun s => (dedupe_sources u.sources).any (fun t => sameKey t s))
    have hcongr : (dedupe_sources inst.sources).filter
          (fun s => !((dedupe_sources u.sources).any (fun t => sameKey t s)))
        = (dedupe_sources inst.sources).filter
          (! (fun s => (dedupe_sources u.sources).any (fun t => sameKey t s)) ·) := rfl
    rw [← hcongr] at hpart
    simp only [List.length_nil]
    omega

/-- Witness for C5 (amended) on `wUnitA1` / `wUnitB1`: one Pass-A citation,
one non-overlapping Pass-B citation with a non-null chunk identifier, two
merged citations. -/
theorem citation_count_witness :
    (mergeUnit [] [wUnitB1] 0 wUnitA1).sources.length
      = (dedupe_sources wUnitA1.sources).length + (dedupe_sources wUnitB1.sources).length
        - ((dedupe_sources wUnitB1.sources).filter (fun s =>
            (dedupe_sources wUnitA1.sources).any (fun t => sameKey t s))).length :=
  (citation_count [wUnitA1] [wUnitB1] [] 0 wUnitA1 (mergeUnit [] [wUnitB1] 0 wUnitA1)
    rfl rfl).2 wUnitB1 rfl (by decide)

/-! ### C9: totality — the exception-explicit merge never fails -/

theorem except_bind_ok {α β : Type _} (a : α) (f : α → Except String β) :
    (Except.ok a >>= f) = f a := rfl

theorem resolveContractE_ok (m : CutoutMap) (n : Nat) (s : SourceIn) :
    resolveContractE m n s = .ok (resolveContract m n s) := by
  cases h : alistGetD m (fieldKey n s.field) ([] : List String) with
  | nil =>
    simp [resolveContractE, resolveContract, h, headE]
    rfl
  | cons x xs => simp [resolveContractE, resolveContract, h, headE]

theorem resolveInstallmentE_ok (m : CutoutMap) (n : Nat) (s : SourceIn) :
    resolveInstallmentE m n s = .ok (resolveInstallment m n s) := by
  cases h : alistGetD m (fieldKey n s.field) ([] : List String) with
  | nil =>
    simp [resolveInstallmentE, resolveInstallment, h, headE]
    rfl
  | cons x xs => simp [resolveInstallmentE, resolveInstallment, h, headE]

theorem mapM_resolveContractE (m : CutoutMap) (n : Nat) :
    ∀ l : List SourceIn,
      l.mapM (resolveContractE m n) = .ok (l.map (resolveContract m n)) := by
  intro l
  induction l with
  | nil => rfl
  | cons s rest ih =>
    rw [List.mapM_cons, resolveContractE_ok, ih]
    rfl

theorem addInstallmentSourcesE_ok (m : CutoutMap) (n : Nat) :
    ∀ (l : List SourceIn) (acc : List SourceOut),
      addInstallmentSourcesE m n acc l = .ok (addInstallmentSources m n acc l) := by
  intro l
  induction l with
  | nil => intro acc; rfl
  | cons s rest ih =>
    intro acc
    show List.foldlM _ acc (s :: rest) = _
    rw [List.foldlM_cons, addInstallmentSources_cons]
    by_cases hskip : skipInstallment acc s = true
    · rw [if_pos hskip, if_pos hskip]
      exact ih acc
    · rw [if_neg hskip, if_neg hskip, resolveInstallmentE_ok]
      exact ih (acc ++ [resolveInstallment m n s])

theorem mergeFieldsE_ok (m : CutoutMap) (b : List UnitRec) (idx : Nat) (u : UnitRec) :
    mergeFieldsE b idx u = .ok (mergeUnit m b idx u).unit := by
  cases hb : b[idx]? with
  | some inst =>
    have hlt : idx < b.length := by
      by_contra hge
      rw [List.getElem?_eq_none (Nat.le_of_not_lt hge)] at hb
      exact Option.noConfusion hb
    have hget : getE b idx = .ok inst := by
      simp [getE, hb]
    rw [mergeUnit_unit_some m b idx u inst hb]
    rw [mergeFieldsE, if_pos hlt, hget, except_bind_ok]
    by_cases ht : truthy (alistGetD inst.unit "installmentPlans" (Val.vlist [])) = true
    · rw [if_pos ht, if_pos ht]
      rfl
    · rw [if_neg ht, if_neg ht]
      rfl
  | none =>
    have hge : ¬ idx < b.length := by
      intro hlt
      rw [List.getElem?_eq_getElem hlt] at hb
      exact Option.noConfusion hb
    rw [mergeUnit_unit_none m b idx u hb, mergeFieldsE, if_neg hge]
    rfl

theorem mergeConfidenceE_ok (m : CutoutMap) (b : List UnitRec) (idx : Nat) (u : UnitRec) :
    mergeConfidenceE b idx u = .ok (mergeUnit m b idx u).confidence := by
  cases hb : b[idx]? with
  | some inst =>
    have hlt : idx < b.length := by
      by_contra hge
      rw [List.getElem?_eq_none (Nat.le_of_not_lt hge)] at hb
      exact Option.noConfusion hb
    have hget : getE b idx = .ok inst := by
      simp [getE, hb]
    rw [mergeUnit_confidence_some m b idx u inst hb]
    rw [mergeConfidenceE, if_pos hlt, hget, except_bind_ok]
    rfl
  | none =>
    have hge : ¬ idx < b.length := by
      intro hlt
      rw [List.getElem?_eq_getElem hlt] at hb
      exact Option.noConfusion hb
    rw [mergeUnit_confidence_none m b idx u hb, mergeConfidenceE, if_neg hge]
    rfl

theorem allSourcesE_ok (m : CutoutMap) (b : List UnitRec) (idx : Nat) (u : UnitRec) :
    allSourcesE m b idx ((dedupe_sources u.sources).map (resolveContract m (idx + 1)))
      = .ok (mergeUnit m b idx u).sources := by
  cases hb : b[idx]? with
  | some inst =>
    have hlt : idx < b.length := by
      by_contra hge
      rw [List.getElem?_eq_none (Nat.le_of_not_lt hge)] at hb
      exact Option.noConfusion hb
    have hget : getE b idx = .ok inst := by
      simp [getE, hb]
    rw [mergeUnit_sources_some m b idx u inst hb]
    rw [allSourcesE, if_pos hlt, hget, except_bind_ok, addInstallmentSourcesE_ok]
  | none =>
    have hge : ¬ idx < b.length := by
      intro hlt
      rw [List.getElem?_eq_getElem hlt] at hb
      exact Option.noConfusion hb
    rw [mergeUnit_sources_none m b idx u hb, allSourcesE, if_neg hge]
    rfl

theorem mergeUnitE_ok (m : CutoutMap) (b : List UnitRec) (idx : Nat) (u : UnitRec) :
    mergeUnitE m b idx u = .ok (mergeUnit m b idx u) := by
  show (mergeFieldsE b idx u >>= fun mergedFields =>
      mergeConfidenceE b idx u >>= fun mergedConfidence =>
      (dedupe_sources u.sources).mapM (resolveContractE m (idx + 1)) >>= fun contractSources =>
      allSourcesE m b idx contractSources >>= fun allSources =>
      pure { unit := mergedFields, sources := allSources, confidence := mergedConfidence })
    = .ok (mergeUnit m b idx u)
  rw [mergeFieldsE_ok m, except_bind_ok, mergeConfidenceE_ok m, except_bind_ok,
    mapM_resolveContractE, except_bind_ok, allSourcesE_ok, except_bind_ok]
  rfl

theorem mergeFromE_ok (m : CutoutMap) (b : List UnitRec) :
    ∀ (a : List UnitRec) (idx : Nat),
      mergeFromE m b idx a = .ok (mergeFrom m b idx a) := by
  intro a
  induction a with
  | nil => intro idx; rfl
  | cons u rest ih =>
    intro idx
    rw [mergeFromE, mergeFrom, mergeUnitE_ok, ih (idx + 1)]
    rfl

/-- C9: on well-shaped input (the typed unit records of the embedding) the
merge runs to completion and raises nothing: the exception-explicit variant
— in which every list subscript is fallible — always returns `ok`, and its
value is exactly the merge's result.  Missing Pass-B counterparts, absent
or empty artifact entries, missing/null/`"calculated"` chunk identifiers
and mismatched confidence key sets are all absorbed. -/
theorem merge_never_raises (a b : List UnitRec) (m : CutoutMap) :
    merge_results_with_cutoutsE a b m = .ok (merge_results_with_cutouts a b m) :=
  mergeFromE_ok m b a 0

end Merge
